import Mathlib

/-!
# Verification of the scapefs block-store and reference-table decoders

Shallow embedding of `src/filesystem.rs` and `src/reference_table.rs`.
The data file is modelled as a length together with a byte function
(`DataFile`); positional reads past the end of the file return fewer
bytes, and since every read buffer in the source is pre-zeroed, a byte
position at or past the end of the file reads as `0`.
Machine integers are modelled as `Nat` / `Int` with explicit wrap-around
where the source's signed reinterpretations matter.
-/

namespace Scapefs

/-- The main data file (`main_file_cache.dat2`): a byte length and the byte
at each position below that length.  `read` calls on `std::fs::File` at or
past the end of the file deliver nothing, leaving the pre-zeroed buffer
byte at `0`. -/
structure DataFile where
  len : Nat
  byteAt : Nat → Nat

/-- The byte a positional read delivers at `pos`: the file's byte below
`len`, the untouched (zeroed) buffer byte otherwise. -/
def DataFile.readByte (f : DataFile) (pos : Nat) : Nat :=
  if pos < f.len then f.byteAt pos else 0

/-- Embeds `MainFile::read_block`'s read loop body (filesystem.rs:299-313):
a 520-byte pre-zeroed buffer filled by one `read` at offset `block * 520`.
The single `read` is not checked for a short result, so bytes past the end
of the file remain `0`. -/
def readBlock (f : DataFile) (block : Nat) : List Nat :=
  (List.range 520).map (fun i => f.readByte (block * 520 + i))

/-- `MainFile` holds an optional handle on the data file
(filesystem.rs:67-70). -/
def MainFile : Type := Option DataFile

/-- Embeds `MainFile::read_block` (filesystem.rs:299-313): `None` without a
file handle, otherwise the 520-byte buffer. -/
def MainFile.read_block (mf : MainFile) (block : Nat) : Option (List Nat) :=
  match mf with
  | none => none
  | some f => some (readBlock f block)

/-- The errors of `FsError` (filesystem.rs:11-18). -/
inductive FsError where
  | FileNotFound
  | InvalidDirectory
  | NoFileHandle
  | MalformedDataSequence
  | CorruptedData
deriving DecidableEq, Repr

/-- Block header fields (filesystem.rs:111-119).  `next_seq` is an `i32`
in the source but is always built from two bytes, hence non-negative and
below `2^16`; it is carried as a `Nat`. -/
structure BlockHeader where
  big : Bool
  entry_id : Nat
  index_id : Nat
  next_seq : Nat
  next_block : Nat
deriving DecidableEq, Repr

/-- Embeds `BlockHeader::from_block` (filesystem.rs:134-157). -/
def BlockHeader.from_block (big : Bool) (data : List Nat) : BlockHeader :=
  match big with
  | true =>
      { big := true
        entry_id := (data.getD 0 0) * 2^24 + (data.getD 1 0) * 2^16 +
          (data.getD 2 0) * 2^8 + data.getD 3 0
        next_seq := (data.getD 4 0) * 2^8 + data.getD 5 0
        next_block := (data.getD 6 0) * 2^16 + (data.getD 7 0) * 2^8 + data.getD 8 0
        index_id := data.getD 9 0 }
  | false =>
      { big := false
        entry_id := (data.getD 0 0) * 2^8 + data.getD 1 0
        next_seq := (data.getD 2 0) * 2^8 + data.getD 3 0
        next_block := (data.getD 4 0) * 2^16 + (data.getD 5 0) * 2^8 + data.getD 6 0
        index_id := data.getD 7 0 }

/-- An index record snapshot (filesystem.rs:78-84).  `offset` is already
multiplied by 520, as `IndexFile::entry` stores it (filesystem.rs:214). -/
structure IndexEntry where
  index : Nat
  id : Nat
  size : Nat
  offset : Nat
deriving DecidableEq, Repr

/-- `IndexEntry::block` (filesystem.rs:181-183). -/
def IndexEntry.block (e : IndexEntry) : Nat := e.offset / 520

/-- The `while remaining > 0` loop of `MainFile::read_entry`
(filesystem.rs:346-371), one recursive call per iteration.  `fuel` only
bounds the number of iterations so the recursion is structural: every
iteration consumes at least one payload byte, so `fuel := remaining`
(which is how `read_entry` instantiates it) always suffices and the
exhaustion branch is dead code. -/
def readEntryLoop (f : DataFile) (idx : Nat) (big : Bool) :
    Nat → Nat → Nat → Nat → List Nat → Except FsError (List Nat)
  | fuel, cb, r, cs, acc =>
    if r = 0 then .ok acc
    else
      match fuel with
      | 0 => .error .MalformedDataSequence
      | fuel + 1 =>
        let block_data := readBlock f cb
        let block_info := BlockHeader.from_block big block_data
        let header_size := if big then 10 else 8
        let available_data := 520 - header_size
        let consumable := if r > available_data then available_data else r
        let acc' := acc ++ (block_data.drop header_size).take consumable
        let r' := r - consumable
        if r' > 0 ∧ (block_info.index_id ≠ idx ∨ block_info.next_seq ≠ cs) then
          .error .MalformedDataSequence
        else
          readEntryLoop f idx big fuel (cb + 1) r' (cs + 1) acc'

/-- Embeds `MainFile::read_entry` (filesystem.rs:332-374). -/
def MainFile.read_entry (mf : MainFile) (e : IndexEntry) : Except FsError (List Nat) :=
  match mf with
  | none => .error .NoFileHandle
  | some f => readEntryLoop f e.index (decide (e.id > 65535)) e.size e.block e.size 0 []

/-- The compression codecs (filesystem.rs:47-57). -/
inductive CompressionType where
  | None
  | Bzip2
  | Gzip
  | Lzma
deriving DecidableEq, Repr

/-- Embeds `CompressionType::from_code` (filesystem.rs:121-132): tags 1, 2, 3
name a codec, everything else (0 included) degrades to `None`. -/
def CompressionType.from_code (code : Nat) : CompressionType :=
  if code = 1 then .Bzip2
  else if code = 2 then .Gzip
  else if code = 3 then .Lzma
  else .None

/-- Entry header fields (filesystem.rs:86-91). -/
structure EntryHeader where
  raw_size : Nat
  real_size : Nat
  compression : CompressionType
deriving DecidableEq, Repr

/-- Embeds `EntryHeader::from_bytes` (filesystem.rs:93-109) on the 9 header
bytes. -/
def EntryHeader.from_bytes (bytes : List Nat) : EntryHeader :=
  { raw_size := (bytes.getD 1 0) * 2^24 + (bytes.getD 2 0) * 2^16 +
      (bytes.getD 3 0) * 2^8 + bytes.getD 4 0
    real_size := (bytes.getD 5 0) * 2^24 + (bytes.getD 6 0) * 2^16 +
      (bytes.getD 7 0) * 2^8 + bytes.getD 8 0
    compression := CompressionType.from_code (bytes.getD 0 0) }

/-- The 9 header bytes `MainFile::read_header` reads at
`entry.offset() + block_header_len` (filesystem.rs:321-327), through the
same pre-zeroed-buffer read as `read_block`. -/
def readHeaderBytes (f : DataFile) (e : IndexEntry) : List Nat :=
  (List.range 9).map
    (fun i => f.readByte (e.offset + (if e.id > 0xFFFF then 10 else 8) + i))

/-- Embeds `MainFile::read_header` (filesystem.rs:315-330). -/
def MainFile.read_header (mf : MainFile) (e : IndexEntry) : Option EntryHeader :=
  match mf with
  | none => none
  | some f => some (EntryHeader.from_bytes (readHeaderBytes f e))

/-- Embeds `MainFile::read_decompressed` (filesystem.rs:376-421).  The outer
`Option` models a panic: `none` stands for the `codec = None` branch's slice
`data[5..raw_size+5]` running out of bounds, for the unsupported `Lzma`
`panic!`, and for the `Gzip`/`Bzip2` branches, whose external decompressors
(`flate2`, `bzip2` crates) are outside this embedding.  No claim touches
those branches. -/
def MainFile.read_decompressed (mf : MainFile) (e : IndexEntry) :
    Option (Except FsError (List Nat)) :=
  match mf with
  | none => some (.error .NoFileHandle)
  | some f =>
    match MainFile.read_entry (some f) e with
    | .error er => some (.error er)
    | .ok data =>
      let header := EntryHeader.from_bytes (readHeaderBytes f e)
      match header.compression with
      | .None =>
        if header.raw_size + 5 ≤ data.length then
          some (.ok ((data.drop 5).take header.raw_size))
        else
          none
      | _ => none

/-! ## Reference table decoder (`src/reference_table.rs`)

The reader `R : Read + Seek` is modelled as the list of bytes not yet
consumed; every reader returns the value together with the remaining
stream, and `none` models an `io::Error` (short read / invalid data). -/

/-- Remaining bytes of the seekable stream fed to the decoder. -/
abbrev Stream := List Nat

/-- `read_exact` into an `n`-byte buffer: `n` bytes or failure. -/
def rdN (n : Nat) (s : Stream) : Option (List Nat × Stream) :=
  if n ≤ s.length then some (s.take n, s.drop n) else none

/-- `read_u8`. -/
def rdU8 (s : Stream) : Option (Nat × Stream) :=
  match s with
  | [] => none
  | b :: t => some (b, t)

/-- Big-endian value of a byte list. -/
def beVal (l : List Nat) : Nat := l.foldl (fun a b => a * 256 + b) 0

/-- Two's-complement reinterpretation of a `w`-bit unsigned value. -/
def toSigned (w : Nat) (n : Nat) : Int :=
  if n < 2 ^ (w - 1) then (n : Int) else (n : Int) - 2 ^ w

/-- `read_u16::<BigEndian>`. -/
def rdU16 (s : Stream) : Option (Nat × Stream) :=
  (rdN 2 s).map (fun p => (beVal p.1, p.2))

/-- `read_u32::<BigEndian>`. -/
def rdU32 (s : Stream) : Option (Nat × Stream) :=
  (rdN 4 s).map (fun p => (beVal p.1, p.2))

/-- `read_i16::<BigEndian>`. -/
def rdI16 (s : Stream) : Option (Int × Stream) :=
  (rdN 2 s).map (fun p => (toSigned 16 (beVal p.1), p.2))

/-- `read_i32::<BigEndian>`. -/
def rdI32 (s : Stream) : Option (Int × Stream) :=
  (rdN 4 s).map (fun p => (toSigned 32 (beVal p.1), p.2))

/-- Embeds `read_vari32` (reference_table.rs:56-72).  The source reads one
`i8` and seeks back by one byte: a net peek of the first byte, interpreted
signed.  `& 0x7FFFFFFF` keeps the low 31 bits of the `i32`'s two's
complement pattern, which is its non-negative residue modulo `2^31`
(`Int.emod`, i.e. `%` on `Int`); the `i16` branch's `.into()` is the
value-preserving `i16 → i32` widening. -/
def read_vari32 (s : Stream) : Option (Int × Stream) :=
  match s with
  | [] => none
  | b :: _ =>
    if toSigned 8 b < 0 then
      (rdI32 s).map (fun p => (p.1 % (2 ^ 31 : Int), p.2))
    else
      rdI16 s

/-- The file record (reference_table.rs:46-50). -/
structure ReferenceTableFile where
  id : Int
  name_hash : Int
deriving DecidableEq, Repr

/-- `ReferenceTableFile::default()`. -/
def ReferenceTableFile.default : ReferenceTableFile :=
  { id := 0, name_hash := 0 }

/-- The folder record (reference_table.rs:20-31).  The `files` map is
modelled as an association list built with the insertion semantics of
`HashMap::insert` (see `insertReplace`). -/
structure ReferenceTableFolder where
  id : Int
  name_hash : Int
  crc32 : Int
  whirlpool : List Nat
  version : Nat
  files : List (Int × ReferenceTableFile)
  file_count : Int
deriving DecidableEq, Repr

/-- Embeds `ReferenceTableFolder::new` (reference_table.rs:33-43): note the
`whirlpool` buffer starts as `Vec::new()`, i.e. zero bytes long. -/
def ReferenceTableFolder.new (id : Int) : ReferenceTableFolder :=
  { id := id, name_hash := 0, crc32 := 0, whirlpool := [], version := 0,
    files := [], file_count := 0 }

/-- The flag bits (reference_table.rs:14-18). -/
structure ReferenceTableFlags where
  has_names : Bool
  has_whirlpool : Bool
deriving DecidableEq, Repr

/-- The decoded table (reference_table.rs:5-12); `entries` is the
`HashMap<i32, ReferenceTableFolder>` as an association list in insertion
order. -/
structure ReferenceTable where
  version : Nat
  revision : Nat
  flags : ReferenceTableFlags
  entries : List (Int × ReferenceTableFolder)
deriving DecidableEq, Repr

/-- `HashMap::insert`: replaces the binding when the key is present,
appends it otherwise (the returned old value is discarded by the source). -/
def insertReplace {α : Type} : List (Int × α) → Int → α → List (Int × α)
  | [], k, v => [(k, v)]
  | (k', v') :: t, k, v =>
    if k' = k then (k, v) :: t else (k', v') :: insertReplace t k v

/-- `HashMap::get` on the association-list model. -/
def lookupA {α : Type} : List (Int × α) → Int → Option α
  | [], _ => none
  | (k', v') :: t, k => if k' = k then some v' else lookupA t k

/-- `ReferenceTable::lookup` (reference_table.rs:219-221). -/
def ReferenceTable.lookup (t : ReferenceTable) (id : Int) :
    Option ReferenceTableFolder :=
  lookupA t.entries id

/-- Reads `count` values with `rd`, in order (the source's
`for _ in 0..count` read loops). -/
def rdCount {α : Type} (rd : Stream → Option (α × Stream)) :
    Nat → Stream → Option (List α × Stream)
  | 0, s => some ([], s)
  | k + 1, s => do
    let (x, s) ← rd s
    let (xs, s) ← rdCount rd k s
    pure (x :: xs, s)

/-- The folder-ID delta loop (reference_table.rs:104-114): one running
accumulator `id` across the whole loop, a `vari32` delta when
`version ≥ 7` and a `u16` (widened to `i32`) delta otherwise. -/
def rdFolderIds (version : Nat) : Nat → Int → Stream → Option (List Int × Stream)
  | 0, _, s => some ([], s)
  | k + 1, id, s => do
    let (d, s) ←
      if 7 ≤ version then read_vari32 s
      else (rdU16 s).map (fun p => ((p.1 : Int), p.2))
    let id' := id + d
    let (rest, s) ← rdFolderIds version k id' s
    pure (id' :: rest, s)

/-- The whirlpool loop (reference_table.rs:136-140): for each folder,
`read_exact` into `whirlpool.as_mut_slice()` — a buffer of the folder's
current `whirlpool` length. -/
def rdWhirlpools :
    List ReferenceTableFolder → Stream →
      Option (List ReferenceTableFolder × Stream)
  | [], s => some ([], s)
  | fo :: rest, s => do
    let (bs, s) ← rdN fo.whirlpool.length s
    let (rest', s) ← rdWhirlpools rest s
    pure ({ fo with whirlpool := bs } :: rest', s)

/-- The per-folder file-ID delta loop body (reference_table.rs:174-184):
the accumulator `file_id` starts at 0 for the folder and each slot appends
a `ReferenceTableFile::default()` with `id` set to the running sum. -/
def rdFileIds (version : Nat) : Nat → Int → Stream →
    Option (List ReferenceTableFile × Stream)
  | 0, _, s => some ([], s)
  | k + 1, file_id, s => do
    let (d, s) ←
      if 7 ≤ version then read_vari32 s
      else (rdU16 s).map (fun p => ((p.1 : Int), p.2))
    let file_id' := file_id + d
    let (rest, s) ← rdFileIds version k file_id' s
    pure ({ ReferenceTableFile.default with id := file_id' } :: rest, s)

/-- The outer file-ID loop (reference_table.rs:171-185): for folder `i`
the inner loop runs `files[i].len()` times — the length of the vector
pushed at reference_table.rs:167, which `Vec::with_capacity` created with
length 0. -/
def rdAllFileIds (version : Nat) :
    List (List ReferenceTableFile) → Stream →
      Option (List (List ReferenceTableFile) × Stream)
  | [], s => some ([], s)
  | fv :: rest, s => do
    let (fv', s) ← rdFileIds version fv.length 0 s
    let (rest', s) ← rdAllFileIds version rest s
    pure (fv' :: rest', s)

/-- The inner file-name loop (reference_table.rs:190-192). -/
def rdFileNamesInner :
    List ReferenceTableFile → Stream →
      Option (List ReferenceTableFile × Stream)
  | [], s => some ([], s)
  | file :: rest, s => do
    let (h, s) ← rdI32 s
    let (rest', s) ← rdFileNamesInner rest s
    pure ({ file with name_hash := h } :: rest', s)

/-- The file-name loops (reference_table.rs:188-194). -/
def rdFileNames :
    List (List ReferenceTableFile) → Stream →
      Option (List (List ReferenceTableFile) × Stream)
  | [], s => some ([], s)
  | fv :: rest, s => do
    let (fv', s) ← rdFileNamesInner fv s
    let (rest', s) ← rdFileNames rest s
    pure (fv' :: rest', s)

/-- The map-materialisation loop (reference_table.rs:196-207): in vector
order, each folder's files go through `HashMap::insert`, then the folder
goes into the entries map keyed by its id. -/
def buildEntries (folders : List ReferenceTableFolder)
    (filesVec : List (List ReferenceTableFile)) :
    List (Int × ReferenceTableFolder) :=
  (List.zip folders filesVec).foldl
    (fun acc p =>
      let v := { p.1 with
        files := p.2.foldl (fun m file => insertReplace m file.id file) [] }
      insertReplace acc v.id v)
    []

/-- Embeds `ReferenceTable::decode` (reference_table.rs:76-213).  `none`
models `Err(io::Error)` — a short read or the unsupported-version error.
The `entry_count` conversion `try_into().unwrap()` (u32 from i32, panics
when negative) is modelled by `Int.toNat`; `read_vari32` never returns a
negative value (`read_vari32_nonneg` is part of the development), so the
panic is unreachable.  The final stream is returned alongside the table,
standing for the reader's final position. -/
def ReferenceTable.decode (s : Stream) : Option (ReferenceTable × Stream) := do
  let (version, s) ← rdU8 s
  if 5 ≤ version ∧ version ≤ 7 then do
    let (revision, s) ← if 6 ≤ version then rdU32 s else pure (0, s)
    let (flags, s) ← rdU8 s
    let has_names := decide ((flags &&& 1) ≠ 0)
    let has_whirlpool := decide ((flags &&& 2) ≠ 0)
    let unknown1 := decide ((flags &&& 4) ≠ 0)
    let unknown2 := decide ((flags &&& 8) ≠ 0)
    let (entry_count, s) ←
      if 7 ≤ version then (read_vari32 s).map (fun p => (p.1.toNat, p.2))
      else rdU16 s
    let (ids, s) ← rdFolderIds version entry_count 0 s
    let folders := ids.map ReferenceTableFolder.new
    let (folders, s) ←
      if has_names then do
        let (hs, s) ← rdCount rdI32 entry_count s
        pure (List.zipWith (fun fo h => { fo with name_hash := h }) folders hs, s)
      else pure (folders, s)
    let (crcs, s) ← rdCount rdI32 entry_count s
    let folders := List.zipWith (fun fo c => { fo with crc32 := c }) folders crcs
    let (_, s) ←
      if unknown2 then rdCount rdI32 entry_count s
      else pure ([], s)
    let (folders, s) ←
      if has_whirlpool then rdWhirlpools folders s else pure (folders, s)
    let (_, s) ←
      if unknown1 then
        rdCount (fun s => do
          let (a, s) ← rdI32 s
          let (b, s) ← rdI32 s
          pure ((a, b), s)) entry_count s
      else pure ([], s)
    let (vers, s) ← rdCount rdU32 entry_count s
    let folders := List.zipWith (fun fo v => { fo with version := v }) folders vers
    -- File counts (reference_table.rs:158-168): each count only sizes a
    -- `Vec::with_capacity`, which has length 0.
    let (_counts, s) ←
      rdCount (fun s =>
        if 7 ≤ version then read_vari32 s
        else (rdU16 s).map (fun p => ((p.1 : Int), p.2))) entry_count s
    let filesVec := _counts.map (fun _ => ([] : List ReferenceTableFile))
    let (filesVec, s) ← rdAllFileIds version filesVec s
    let (filesVec, s) ←
      if has_names then rdFileNames filesVec s else pure (filesVec, s)
    pure ({ version := version, revision := revision,
            flags := { has_names := has_names, has_whirlpool := has_whirlpool },
            entries := buildEntries folders filesVec }, s)
  else
    none

/-! ## Derived notions used by the theorem statements -/

/-- The block header length `read_entry` uses (filesystem.rs:350). -/
def headerSizeB (big : Bool) : Nat := if big then 10 else 8

/-- Payload bytes available per block (filesystem.rs:351). -/
def availB (big : Bool) : Nat := 520 - headerSizeB big

/-- The bytes `read_entry` consumes from the current block
(filesystem.rs:352). -/
def consumableB (big : Bool) (r : Nat) : Nat :=
  if r > availB big then availB big else r

/-- Number of loop iterations of `read_entry` for an entry of `size`
payload bytes: `⌈size / availB big⌉`. -/
def nBlocks (big : Bool) (size : Nat) : Nat :=
  (size + availB big - 1) / availB big

/-- The block-form flag `read_entry` derives from the entry id
(filesystem.rs:348). -/
def entryBig (e : IndexEntry) : Bool := decide (e.id > 65535)

/-- The header parsed from block `b` of the data file. -/
def blockHdr (f : DataFile) (big : Bool) (b : Nat) : BlockHeader :=
  BlockHeader.from_block big (readBlock f b)

/-- The linkage validation `read_entry` applies to the `k`-th visited block
(filesystem.rs:362-367): its `index_id` matches the entry's index and its
`next_seq` matches the number of blocks consumed before it. -/
def blockOkAt (f : DataFile) (e : IndexEntry) (k : Nat) : Prop :=
  (blockHdr f (entryBig e) (e.block + k)).index_id = e.index ∧
  (blockHdr f (entryBig e) (e.block + k)).next_seq = k

instance (f : DataFile) (e : IndexEntry) (k : Nat) : Decidable (blockOkAt f e k) :=
  inferInstanceAs (Decidable (_ ∧ _))

/-- Byte offsets inside a block occupied by the header's `next_block`
field (filesystem.rs:142 for the large form, filesystem.rs:151 for the
small form). -/
def nextBlockBytePositions (big : Bool) : List Nat :=
  if big then [6, 7, 8] else [4, 5, 6]

/-- The payload assembly `read_entry` performs: block `cb` contributes the
`min remaining (availB big)` bytes following its header, the rest comes
from the subsequent blocks in file order.  `fuel` as in `readEntryLoop`. -/
def assembled (f : DataFile) (big : Bool) : Nat → Nat → Nat → List Nat
  | _, _, 0 => []
  | 0, _, _ + 1 => []
  | fuel + 1, cb, r + 1 =>
    let c := min (r + 1) (availB big)
    ((readBlock f cb).drop (headerSizeB big)).take c ++
      assembled f big fuel (cb + 1) (r + 1 - c)

/-- Modelled from the spec: the §4.B traversal, step (f) of which sets
`current_block = block.next_block` — identical to `readEntryLoop` except
for the successor block.  Used to compare the source's traversal with the
spec's. -/
def readEntrySpecLoop (f : DataFile) (idx : Nat) (big : Bool) :
    Nat → Nat → Nat → Nat → List Nat → Except FsError (List Nat)
  | fuel, cb, r, cs, acc =>
    if r = 0 then .ok acc
    else
      match fuel with
      | 0 => .error .MalformedDataSequence
      | fuel + 1 =>
        let block_data := readBlock f cb
        let block_info := BlockHeader.from_block big block_data
        let header_size := if big then 10 else 8
        let available_data := 520 - header_size
        let consumable := if r > available_data then available_data else r
        let acc' := acc ++ (block_data.drop header_size).take consumable
        let r' := r - consumable
        if r' > 0 ∧ (block_info.index_id ≠ idx ∨ block_info.next_seq ≠ cs) then
          .error .MalformedDataSequence
        else
          readEntrySpecLoop f idx big fuel block_info.next_block r' (cs + 1) acc'

/-- Modelled from the spec: `read_entry` following the spec's
`next_block` chain. -/
def read_entry_spec (mf : MainFile) (e : IndexEntry) : Except FsError (List Nat) :=
  match mf with
  | none => .error .NoFileHandle
  | some f =>
    readEntrySpecLoop f e.index (decide (e.id > 65535)) e.size e.block e.size 0 []

/-! ## Concrete instances used by counterexamples and witnesses -/

deriving instance DecidableEq for Except

/-- A 15-byte data file: one small-form block whose 8-byte header is all
zero, followed by the 7 payload bytes `[0, 0,0,0,2, 170, 187]` — a
codec-`None` entry header (tag 0, `raw_size` 2) and two data bytes. -/
def fsimple : DataFile :=
  { len := 15
    byteAt := fun p =>
      if p = 12 then 2
      else if p = 13 then 170
      else if p = 14 then 187
      else 0 }

/-- The index record for the single entry of `fsimple`. -/
def esimple : IndexEntry := { index := 0, id := 0, size := 7, offset := 0 }

/-- A data file whose block 0 (small form) has `next_block = 5`,
`next_seq = 0`, `index_id = 0` and payload bytes all `1`; block 1's first
payload byte is `42`; block 5's first payload byte is `99`. -/
def c1file : DataFile :=
  { len := 2609
    byteAt := fun p =>
      if p = 6 then 5
      else if 8 ≤ p ∧ p < 520 then 1
      else if p = 528 then 42
      else if p = 2608 then 99
      else 0 }

/-- A 513-byte entry starting at block 0 of `c1file`: 512 bytes from
block 0 plus one byte from a second block. -/
def c1entry : IndexEntry := { index := 0, id := 1, size := 513, offset := 0 }

/-- `c1file` with block 0's `next_block` field changed from 5 to 7 — the
two files differ only inside a `next_block` field. -/
def c1fileB : DataFile :=
  { len := 2609
    byteAt := fun p =>
      if p = 6 then 7
      else if 8 ≤ p ∧ p < 520 then 1
      else if p = 528 then 42
      else if p = 2608 then 99
      else 0 }

/-- A data file whose block 0 header carries `index_id = 3` (byte 7) and
otherwise zeros. -/
def c4badfile : DataFile :=
  { len := 1100
    byteAt := fun p => if p = 7 then 3 else 0 }

/-- An all-zero data file. -/
def c4zerofile : DataFile :=
  { len := 1100, byteAt := fun _ => 0 }

/-- A 1024-byte entry (two small-form blocks) at block 0. -/
def c4entry : IndexEntry := { index := 0, id := 0, size := 1024, offset := 0 }

/-- Reference-table payload, version 5, `has_whirlpool` set: flag byte 2,
one folder (delta 5), crc 1, then — where the spec places 64 whirlpool
bytes — directly the folder version 2 and a zero file count, as the
source actually consumes the stream. -/
def c2bytes : Stream :=
  [5, 2, 0, 1, 0, 5, 0, 0, 0, 1, 0, 0, 0, 2, 0, 0]

/-- Reference-table payload, version 5, no flags, one folder (delta 5),
crc 1, folder version 2, file count 1, followed by the 2-byte file-ID
delta `3` that the spec's step 13 would consume. -/
def c7bytes : Stream :=
  [5, 0, 0, 1, 0, 5, 0, 0, 0, 1, 0, 0, 0, 2, 0, 1, 0, 3]

/-- Reference-table payload, version 5, no flags, two folders with deltas
`5` and `0` — both folders obtain ID 5.  Crcs 1 and 2, folder versions 3
and 4, file counts 0 and 0. -/
def c8bytes : Stream :=
  [5, 0, 0, 2, 0, 5, 0, 0, 0, 0, 0, 1, 0, 0, 0, 2,
   0, 0, 0, 3, 0, 0, 0, 4, 0, 0, 0, 0]

/-! ## Helper lemmas -/

theorem readBlock_length (f : DataFile) (b : Nat) : (readBlock f b).length = 520 := by
  simp [readBlock]

theorem readBlock_getElem? (f : DataFile) (b j : Nat) :
    (readBlock f b)[j]? =
      if j < 520 then some (f.readByte (b * 520 + j)) else none := by
  by_cases h : j < 520
  · simp [readBlock, List.getElem?_map, List.getElem?_range h, h]
  · simp [readBlock, h, List.getElem?_eq_none, Nat.le_of_not_lt (by simpa using h)]

theorem readBlock_getD (f : DataFile) (b j : Nat) (h : j < 520) :
    (readBlock f b).getD j 0 = f.readByte (b * 520 + j) := by
  simp [List.getD_eq_getElem?_getD, readBlock_getElem?, h]

theorem DataFile.readByte_past (f : DataFile) (p : Nat) (h : f.len ≤ p) :
    f.readByte p = 0 := by
  simp [DataFile.readByte, Nat.not_lt.mpr h]

theorem beVal_foldl_lt (l : List Nat) :
    ∀ acc : Nat, (∀ x ∈ l, x < 256) →
      l.foldl (fun a b => a * 256 + b) acc < (acc + 1) * 256 ^ l.length := by
  induction l with
  | nil => intro acc _; simpa using Nat.lt_succ_self acc
  | cons b l ih =>
    intro acc h
    have hb : b < 256 := h b (List.mem_cons_self b l)
    have := ih (acc * 256 + b) (fun x hx => h x (List.mem_cons_of_mem b hx))
    calc (b :: l).foldl (fun a b => a * 256 + b) acc
        = l.foldl (fun a b => a * 256 + b) (acc * 256 + b) := rfl
      _ < (acc * 256 + b + 1) * 256 ^ l.length := this
      _ ≤ ((acc + 1) * 256) * 256 ^ l.length := by
          have : acc * 256 + b + 1 ≤ (acc + 1) * 256 := by omega
          exact Nat.mul_le_mul_right _ this
      _ = (acc + 1) * 256 ^ (b :: l).length := by
          simp [List.length_cons, pow_succ]; ring

theorem beVal_lt (l : List Nat) (h : ∀ x ∈ l, x < 256) :
    beVal l < 256 ^ l.length := by
  simpa using beVal_foldl_lt l 0 h

theorem toSigned8_neg_iff (b : Nat) (hb : b < 256) :
    toSigned 8 b < 0 ↔ 128 ≤ b := by
  simp only [toSigned]
  split
  next h => norm_num at h; omega
  next h => norm_num at h; omega

theorem toSigned16_nonneg (n : Nat) (h : n < 2 ^ 15) : 0 ≤ toSigned 16 n := by
  simp only [toSigned]
  split
  · positivity
  next hc =>
    norm_num at hc
    omega

theorem toSigned16_eq_self (n : Nat) (h : n < 2 ^ 15) :
    toSigned 16 n = (n : Int) := by
  simp only [toSigned]
  split
  · rfl
  next hc =>
    norm_num at hc
    omega

theorem toSigned32_emod31 (n : Nat) (h : n < 2 ^ 32) :
    toSigned 32 n % (2 ^ 31 : Int) = ((n % 2 ^ 31 : Nat) : Int) := by
  simp only [toSigned]
  split <;> push_cast <;> omega

theorem beVal_take2 (b t0 : Nat) (t' : List Nat) :
    beVal ((b :: t0 :: t').take 2) = b * 256 + t0 := by
  simp [beVal, List.take_cons, List.foldl]

theorem rdI32_eq (s : Stream) :
    rdI32 s =
      if 4 ≤ s.length then some (toSigned 32 (beVal (s.take 4)), s.drop 4)
      else none := by
  unfold rdI32 rdN
  split <;> rfl

theorem rdI16_eq (s : Stream) :
    rdI16 s =
      if 2 ≤ s.length then some (toSigned 16 (beVal (s.take 2)), s.drop 2)
      else none := by
  unfold rdI16 rdN
  split <;> rfl

/-- `read_vari32` only produces non-negative values (on streams of genuine
bytes): the 4-byte branch is a residue modulo `2^31`, the 2-byte branch has
a sign byte below 128. -/
theorem read_vari32_nonneg (s : Stream) (hs : ∀ x ∈ s, x < 256)
    (v : Int) (s' : Stream) (h : read_vari32 s = some (v, s')) : 0 ≤ v := by
  match s, h with
  | b :: t, h =>
    have hb : b < 256 := hs b (List.mem_cons_self b t)
    rw [read_vari32] at h
    by_cases hneg : toSigned 8 b < 0
    · rw [if_pos hneg, rdI32_eq] at h
      by_cases hl : 4 ≤ (b :: t).length
      · rw [if_pos hl, Option.map_some'] at h
        cases h
        exact Int.emod_nonneg _ (by decide)
      · rw [if_neg hl] at h
        cases h
    · rw [if_neg hneg, rdI16_eq] at h
      by_cases hl : 2 ≤ (b :: t).length
      · rw [if_pos hl] at h
        cases h
        have hblt : b < 128 := by
          by_contra hge
          exact hneg ((toSigned8_neg_iff b hb).mpr (by omega))
        match t, hl with
        | t0 :: t', _ =>
          have ht0 : t0 < 256 := hs t0 (by simp)
          refine toSigned16_nonneg _ ?_
          rw [beVal_take2]
          omega
      · rw [if_neg hl] at h
        cases h

/-! ## Claim theorems -/

/-- C10: with the data file handle present, `read_block` returns `Some` of
a 520-byte buffer for every block id, however far past the end of the
file; the single `read` is never treated as an error, a short read is not
detected, and every byte position at or past the end of the file stays
`0` in the returned buffer. -/
theorem read_block_total_c10 (f : DataFile) (b : Nat) :
    MainFile.read_block (some f) b = some (readBlock f b) ∧
    (readBlock f b).length = 520 ∧
    (∀ i, i < 520 → f.len ≤ b * 520 + i → (readBlock f b).getD i 0 = 0) := by
  refine ⟨rfl, readBlock_length f b, fun i hi hpast => ?_⟩
  rw [readBlock_getD f b i hi]
  exact DataFile.readByte_past f _ hpast

theorem read_block_total_c10_witness : (readBlock fsimple 1).getD 0 0 = 0 :=
  (read_block_total_c10 fsimple 1).2.2 0 (by decide) (by decide)

/-- C6: `read_vari32` peeks the first byte without net consumption; when
its signed interpretation is negative (value ≥ 128) it consumes 4 bytes
and returns their big-endian value masked to the low 31 bits, otherwise it
consumes 2 bytes and returns their big-endian value zero-extended; the
result is always non-negative. -/
theorem read_vari32_spec_c6 (b : Nat) (t : List Nat)
    (hbytes : ∀ x ∈ b :: t, x < 256) :
    (128 ≤ b → 3 ≤ t.length →
      read_vari32 (b :: t) =
        some (((beVal ((b :: t).take 4) % 2 ^ 31 : Nat) : Int), (b :: t).drop 4)) ∧
    (b < 128 → 1 ≤ t.length →
      read_vari32 (b :: t) =
        some (((beVal ((b :: t).take 2) : Nat) : Int), (b :: t).drop 2)) ∧
    (∀ v s', read_vari32 (b :: t) = some (v, s') → 0 ≤ v) := by
  have hb : b < 256 := hbytes b (List.mem_cons_self b t)
  refine ⟨?_, ?_, read_vari32_nonneg (b :: t) hbytes⟩
  · intro h128 hlen
    have hneg : toSigned 8 b < 0 := (toSigned8_neg_iff b hb).mpr h128
    have hlen4 : 4 ≤ (b :: t).length := by simp; omega
    have hval : beVal ((b :: t).take 4) < 2 ^ 32 := by
      have := beVal_lt ((b :: t).take 4)
        (fun x hx => hbytes x (List.take_subset 4 (b :: t) hx))
      have hl : ((b :: t).take 4).length = 4 := by simp [List.length_take]; omega
      rw [hl] at this
      omega
    rw [read_vari32]
    simp only [hneg, if_pos, rdI32, rdN, hlen4, if_pos, Option.map]
    exact congrArg some (Prod.ext (toSigned32_emod31 _ hval) rfl)
  · intro h128 hlen
    have hneg : ¬ toSigned 8 b < 0 := fun hc =>
      absurd ((toSigned8_neg_iff b hb).mp hc) (by omega)
    have hlen2 : 2 ≤ (b :: t).length := by simp; omega
    rw [read_vari32]
    simp only [hneg, if_neg, not_false_iff, rdI16, rdN, hlen2, if_pos, Option.map]
    refine congrArg some (Prod.ext ?_ rfl)
    match t, hlen with
    | t0 :: t', _ =>
      have ht0 : t0 < 256 := hbytes t0 (by simp)
      rw [beVal_take2]
      exact toSigned16_eq_self _ (by omega)

theorem consumableB_le (big : Bool) (r : Nat) : consumableB big r ≤ r ∧
    consumableB big r ≤ availB big ∧ (0 < r → 0 < consumableB big r) := by
  simp only [consumableB, availB, headerSizeB]
  split <;> [skip; skip] <;> split <;> omega

theorem readEntryLoop_zero (f : DataFile) (idx : Nat) (big : Bool)
    (fuel cb cs : Nat) (acc : List Nat) :
    readEntryLoop f idx big fuel cb 0 cs acc = .ok acc := by
  rw [readEntryLoop.eq_def]
  simp

theorem readEntryLoop_out (f : DataFile) (idx : Nat) (big : Bool)
    (cb r cs : Nat) (acc : List Nat) (hr : r ≠ 0) :
    readEntryLoop f idx big 0 cb r cs acc = .error .MalformedDataSequence := by
  rw [readEntryLoop.eq_def]
  simp [hr]

theorem readEntryLoop_succ (f : DataFile) (idx : Nat) (big : Bool)
    (fuel cb r cs : Nat) (acc : List Nat) (hr : r ≠ 0) :
    readEntryLoop f idx big (fuel + 1) cb r cs acc =
      if r - consumableB big r > 0 ∧
          ((BlockHeader.from_block big (readBlock f cb)).index_id ≠ idx ∨
           (BlockHeader.from_block big (readBlock f cb)).next_seq ≠ cs) then
        .error .MalformedDataSequence
      else
        readEntryLoop f idx big fuel (cb + 1) (r - consumableB big r) (cs + 1)
          (acc ++ ((readBlock f cb).drop (headerSizeB big)).take (consumableB big r)) := by
  rw [readEntryLoop.eq_def]
  simp only [hr, if_neg, not_false_iff]
  rfl

theorem readEntryLoop_ok_length (f : DataFile) (idx : Nat) (big : Bool) :
    ∀ fuel cb r cs acc v,
      readEntryLoop f idx big fuel cb r cs acc = .ok v →
      v.length = acc.length + r := by
  intro fuel
  induction fuel with
  | zero =>
    intro cb r cs acc v h
    by_cases hr : r = 0
    · subst hr
      rw [readEntryLoop_zero] at h
      cases h
      simp
    · rw [readEntryLoop_out f idx big cb r cs acc hr] at h
      cases h
  | succ fuel ih =>
    intro cb r cs acc v h
    by_cases hr : r = 0
    · subst hr
      rw [readEntryLoop_zero] at h
      cases h
      simp
    · rw [readEntryLoop_succ f idx big fuel cb r cs acc hr] at h
      split at h
      · cases h
      · have hrec := ih _ _ _ _ _ h
        have hc := consumableB_le big r
        have hchunk :
            (((readBlock f cb).drop (headerSizeB big)).take (consumableB big r)).length =
              consumableB big r := by
          rw [List.length_take, List.length_drop, readBlock_length]
          simp only [availB] at hc
          omega
        rw [hrec, List.length_append, hchunk]
        omega

theorem readEntryLoop_ok_assembled (f : DataFile) (idx : Nat) (big : Bool) :
    ∀ fuel cb r cs acc v,
      readEntryLoop f idx big fuel cb r cs acc = .ok v →
      v = acc ++ assembled f big fuel cb r := by
  intro fuel
  induction fuel with
  | zero =>
    intro cb r cs acc v h
    by_cases hr : r = 0
    · subst hr
      rw [readEntryLoop_zero] at h
      cases h
      simp [assembled]
    · rw [readEntryLoop_out f idx big cb r cs acc hr] at h
      cases h
  | succ fuel ih =>
    intro cb r cs acc v h
    by_cases hr : r = 0
    · subst hr
      rw [readEntryLoop_zero] at h
      cases h
      simp [assembled]
    · rw [readEntryLoop_succ f idx big fuel cb r cs acc hr] at h
      split at h
      · cases h
      · have hv := ih _ _ _ _ _ h
        obtain ⟨r', rfl⟩ : ∃ r', r = r' + 1 := ⟨r - 1, by omega⟩
        rw [hv, assembled]
        have hmin : min (r' + 1) (availB big) = consumableB big (r' + 1) := by
          simp only [consumableB]
          split <;> omega
        rw [hmin]
        simp [List.append_assoc]

/-- C5: whenever `read_entry` succeeds, the returned vector has length
exactly the entry's `size` field, and it is assembled block by block in
file order: each block contributes the `min remaining (availB big)` bytes
after its 8-byte (small form, id ≤ 0xFFFF, 512 payload bytes) or 10-byte
(large form, id > 0xFFFF, 510 payload bytes) header, the last block
contributing only the remaining bytes (`assembled`). -/
theorem read_entry_size_c5 (f : DataFile) (e : IndexEntry) (v : List Nat)
    (h : MainFile.read_entry (some f) e = .ok v) :
    v.length = e.size ∧
    v = assembled f (entryBig e) e.size e.block e.size := by
  unfold MainFile.read_entry at h
  constructor
  · simpa using readEntryLoop_ok_length f e.index _ _ _ _ _ _ _ h
  · simpa using readEntryLoop_ok_assembled f e.index _ _ _ _ _ _ _ h

set_option maxRecDepth 1000000 in
theorem read_entry_size_c5_witness :
    ([0, 0, 0, 0, 2, 170, 187] : List Nat).length = esimple.size ∧
    ([0, 0, 0, 0, 2, 170, 187] : List Nat) =
      assembled fsimple (entryBig esimple) esimple.size esimple.block esimple.size :=
  read_entry_size_c5 fsimple esimple [0, 0, 0, 0, 2, 170, 187] (by decide)

theorem readEntryLoop_single (f : DataFile) (idx : Nat) (big : Bool)
    (cb cs r fuel : Nat) (acc : List Nat)
    (hr : r ≤ availB big) (hfuel : r ≤ fuel) :
    readEntryLoop f idx big fuel cb r cs acc =
      .ok (acc ++ ((readBlock f cb).drop (headerSizeB big)).take r) := by
  cases r with
  | zero =>
    rw [readEntryLoop_zero]
    simp
  | succ n =>
    match fuel, hfuel with
    | fuel + 1, _ =>
      rw [readEntryLoop_succ f idx big fuel cb (n + 1) cs acc (Nat.succ_ne_zero n)]
      have hcons : consumableB big (n + 1) = n + 1 := by
        simp only [consumableB]
        split <;> omega
      rw [hcons]
      simp only [Nat.sub_self, gt_iff_lt, Nat.lt_irrefl, false_and, if_neg,
        not_false_iff]
      rw [readEntryLoop_zero]

/-- C3 (amended): a short block read is not detected.  `read_block`
zero-fills the part of the 520-byte buffer past the end of the file and
`read_entry` proceeds on the zero-filled buffer; in particular an entry
that fits one block succeeds for any data file, of any length. -/
theorem read_entry_short_read_c3 (f : DataFile) (e : IndexEntry)
    (hsize : e.size ≤ availB (entryBig e)) :
    MainFile.read_entry (some f) e =
      .ok (((readBlock f e.block).drop (headerSizeB (entryBig e))).take e.size) := by
  unfold MainFile.read_entry
  simpa using
    readEntryLoop_single f e.index (entryBig e) e.block 0 e.size e.size []
      hsize (Nat.le_refl _)

set_option maxRecDepth 1000000 in
/-- C3 (counterexample): `fsimple` is 15 bytes long, so reading its block 0
returns only 15 of 520 bytes, yet `read_entry` succeeds on it. -/
theorem read_entry_short_read_c3_counterexample :
    fsimple.len < 520 ∧
    MainFile.read_entry (some fsimple) esimple = .ok [0, 0, 0, 0, 2, 170, 187] :=
  ⟨by decide, by decide⟩

theorem read_entry_short_read_c3_witness :
    MainFile.read_entry (some fsimple) esimple =
      .ok (((readBlock fsimple esimple.block).drop
        (headerSizeB (entryBig esimple))).take esimple.size) :=
  read_entry_short_read_c3 fsimple esimple (by decide)

/-- C9: for an entry whose header codec tag decodes to `None` (tag 0 or
any unknown tag), `read_decompressed` returns exactly the reassembled
payload from offset 5 up to but excluding offset `raw_size + 5` — skipping
only the 1-byte codec tag and the 4-byte `raw_size` field, with no
`real_size` field in this branch — so the output has length `raw_size`. -/
theorem read_decompressed_none_c9 (f : DataFile) (e : IndexEntry)
    (data : List Nat)
    (hdata : MainFile.read_entry (some f) e = .ok data)
    (hcodec : (EntryHeader.from_bytes (readHeaderBytes f e)).compression = .None)
    (hlen : (EntryHeader.from_bytes (readHeaderBytes f e)).raw_size + 5 ≤ data.length) :
    MainFile.read_decompressed (some f) e =
      some (.ok ((data.drop 5).take
        (EntryHeader.from_bytes (readHeaderBytes f e)).raw_size)) ∧
    ((data.drop 5).take
        (EntryHeader.from_bytes (readHeaderBytes f e)).raw_size).length =
      (EntryHeader.from_bytes (readHeaderBytes f e)).raw_size ∧
    (∀ c : Nat, c ≠ 1 → c ≠ 2 → c ≠ 3 → CompressionType.from_code c = .None) := by
  refine ⟨?_, ?_, ?_⟩
  · simp only [MainFile.read_decompressed, hdata, hcodec, hlen, if_pos]
  · rw [List.length_take, List.length_drop]
    omega
  · intro c h1 h2 h3
    simp [CompressionType.from_code, h1, h2, h3]

set_option maxRecDepth 1000000 in
theorem read_decompressed_none_c9_witness :
    MainFile.read_decompressed (some fsimple) esimple =
      some (.ok (([0, 0, 0, 0, 2, 170, 187].drop 5).take
        (EntryHeader.from_bytes (readHeaderBytes fsimple esimple)).raw_size)) :=
  (read_decompressed_none_c9 fsimple esimple [0, 0, 0, 0, 2, 170, 187]
    (by decide) (by decide) (by decide)).1

theorem availB_pos (big : Bool) : 0 < availB big := by
  cases big <;> decide

theorem nBlocks_ge2_iff (big : Bool) (r : Nat) :
    1 < nBlocks big r ↔ availB big < r := by
  cases big <;> simp only [nBlocks, availB, headerSizeB] <;> norm_num <;> omega

theorem nBlocks_sub (big : Bool) (r : Nat) (h : availB big < r) :
    nBlocks big (r - availB big) = nBlocks big r - 1 := by
  cases big <;> simp only [nBlocks, availB, headerSizeB] at * <;> norm_num at * <;> omega

theorem consumableB_eq_avail (big : Bool) (r : Nat) (h : availB big < r) :
    consumableB big r = availB big := by
  simp only [consumableB]
  split <;> omega

theorem readEntryLoop_all_ok (f : DataFile) (idx : Nat) (big : Bool) :
    ∀ fuel r cb cs acc, r ≤ fuel →
      (∀ k, k + 1 < nBlocks big r →
        (blockHdr f big (cb + k)).index_id = idx ∧
        (blockHdr f big (cb + k)).next_seq = cs + k) →
      ∃ v, readEntryLoop f idx big fuel cb r cs acc = .ok v := by
  intro fuel
  induction fuel with
  | zero =>
    intro r cb cs acc hle _
    have hr : r = 0 := by omega
    subst hr
    exact ⟨acc, readEntryLoop_zero f idx big 0 cb cs acc⟩
  | succ fuel ih =>
    intro r cb cs acc hle hok
    by_cases hr : r = 0
    · subst hr
      exact ⟨acc, readEntryLoop_zero f idx big _ cb cs acc⟩
    · rw [readEntryLoop_succ f idx big fuel cb r cs acc hr]
      by_cases hrem : r - consumableB big r > 0
      · have hgt : availB big < r := by
          by_contra hle2
          simp only [consumableB, gt_iff_lt] at hrem
          rw [if_neg (by omega)] at hrem
          omega
        have h0 := hok 0 ((nBlocks_ge2_iff big r).mpr hgt)
        simp only [Nat.add_zero] at h0
        rw [if_neg (fun hcond =>
          hcond.2.elim (fun hne => hne (by simpa [blockHdr] using h0.1))
            (fun hne => hne (by simpa [blockHdr] using h0.2)))]
        have hcons := consumableB_eq_avail big r hgt
        apply ih (r - consumableB big r) (cb + 1) (cs + 1) _
          (by have := availB_pos big; omega)
        intro k hk
        rw [hcons, nBlocks_sub big r hgt] at hk
        have h2 := hok (k + 1) (by omega)
        have e1 : cb + (k + 1) = cb + 1 + k := by omega
        have e2 : cs + (k + 1) = cs + 1 + k := by omega
        rw [e1, e2] at h2
        exact h2
      · rw [if_neg (fun hcond => hrem hcond.1),
          show r - consumableB big r = 0 by omega, readEntryLoop_zero]
        exact ⟨_, rfl⟩

theorem readEntryLoop_err (f : DataFile) (idx : Nat) (big : Bool) :
    ∀ k fuel r cb cs acc, r ≤ fuel → k + 1 < nBlocks big r →
      ¬((blockHdr f big (cb + k)).index_id = idx ∧
        (blockHdr f big (cb + k)).next_seq = cs + k) →
      readEntryLoop f idx big fuel cb r cs acc = .error .MalformedDataSequence := by
  intro k
  induction k with
  | zero =>
    intro fuel r cb cs acc hle hlt hbad
    have hgt : availB big < r := (nBlocks_ge2_iff big r).mp hlt
    have hr : r ≠ 0 := by omega
    obtain ⟨fuel', rfl⟩ : ∃ fuel', fuel = fuel' + 1 := ⟨fuel - 1, by omega⟩
    rw [readEntryLoop_succ f idx big fuel' cb r cs acc hr]
    have hcons := consumableB_eq_avail big r hgt
    simp only [Nat.add_zero] at hbad
    rw [if_pos ⟨by omega, by
      rcases not_and_or.mp hbad with hne | hne
      · exact Or.inl (by simpa [blockHdr] using hne)
      · exact Or.inr (by simpa [blockHdr] using hne)⟩]
  | succ k ihk =>
    intro fuel r cb cs acc hle hlt hbad
    have hgt : availB big < r := (nBlocks_ge2_iff big r).mp (by omega)
    have hr : r ≠ 0 := by omega
    obtain ⟨fuel', rfl⟩ : ∃ fuel', fuel = fuel' + 1 := ⟨fuel - 1, by omega⟩
    rw [readEntryLoop_succ f idx big fuel' cb r cs acc hr]
    have hcons := consumableB_eq_avail big r hgt
    by_cases hcur : (blockHdr f big cb).index_id = idx ∧
        (blockHdr f big cb).next_seq = cs
    · rw [if_neg (fun hcond =>
        hcond.2.elim (fun hne => hne (by simpa [blockHdr] using hcur.1))
          (fun hne => hne (by simpa [blockHdr] using hcur.2)))]
      apply ihk fuel' (r - consumableB big r) (cb + 1) (cs + 1)
      · have := availB_pos big; omega
      · rw [hcons, nBlocks_sub big r hgt]; omega
      · have e1 : cb + (k + 1) = cb + 1 + k := by omega
        have e2 : cs + (k + 1) = cs + 1 + k := by omega
        rw [e1, e2] at hbad
        exact hbad
    · rw [if_pos ⟨by omega, by
        rcases not_and_or.mp hcur with hne | hne
        · exact Or.inl (by simpa [blockHdr] using hne)
        · exact Or.inr (by simpa [blockHdr] using hne)⟩]

/-- C4: in `read_entry`, a non-final block of the chain (one after which
payload still remains) whose header `index_id` differs from the entry's
index or whose `next_seq` differs from the number of previously consumed
blocks makes `read_entry` fail with `MalformedDataSequence`; conversely if
every non-final block passes the check, `read_entry` succeeds — the final
block's `index_id` and `next_seq` are never validated. -/
theorem read_entry_validation_c4 (f : DataFile) (e : IndexEntry) :
    (∀ k, k + 1 < nBlocks (entryBig e) e.size → ¬ blockOkAt f e k →
      MainFile.read_entry (some f) e = .error .MalformedDataSequence) ∧
    ((∀ k, k + 1 < nBlocks (entryBig e) e.size → blockOkAt f e k) →
      ∃ v, MainFile.read_entry (some f) e = .ok v) := by
  constructor
  · intro k hk hbad
    unfold MainFile.read_entry
    exact readEntryLoop_err f e.index (entryBig e) k e.size e.size e.block 0 []
      (Nat.le_refl _) hk (by simpa [blockOkAt] using hbad)
  · intro hok
    unfold MainFile.read_entry
    exact readEntryLoop_all_ok f e.index (entryBig e) e.size e.size e.block 0 []
      (Nat.le_refl _) (fun k hk => by simpa [blockOkAt] using hok k hk)

set_option maxRecDepth 1000000 in
theorem read_entry_validation_c4_witness :
    MainFile.read_entry (some c4badfile) c4entry = .error .MalformedDataSequence ∧
    ∃ v, MainFile.read_entry (some c4zerofile) c4entry = .ok v :=
  ⟨(read_entry_validation_c4 c4badfile c4entry).1 0 (by decide) (by decide),
   (read_entry_validation_c4 c4zerofile c4entry).2 (fun k hk => by
     have hn : nBlocks (entryBig c4entry) c4entry.size = 2 := by decide
     have hk0 : k = 0 := by omega
     subst hk0
     decide)⟩

theorem readBlock_agree_at (f g : DataFile) (big : Bool)
    (hagree : ∀ p, p % 520 ∉ nextBlockBytePositions big →
      f.readByte p = g.readByte p)
    (cb j : Nat) (hj : j < 520) (hjn : j ∉ nextBlockBytePositions big) :
    (readBlock f cb).getD j 0 = (readBlock g cb).getD j 0 := by
  rw [readBlock_getD f cb j hj, readBlock_getD g cb j hj]
  refine hagree _ ?_
  have hmod : (cb * 520 + j) % 520 = j := by omega
  rw [hmod]
  exact hjn

theorem from_block_agree (f g : DataFile) (big : Bool) (cb : Nat)
    (hagree : ∀ p, p % 520 ∉ nextBlockBytePositions big →
      f.readByte p = g.readByte p) :
    (BlockHeader.from_block big (readBlock f cb)).index_id =
      (BlockHeader.from_block big (readBlock g cb)).index_id ∧
    (BlockHeader.from_block big (readBlock f cb)).next_seq =
      (BlockHeader.from_block big (readBlock g cb)).next_seq := by
  cases big
  · simp only [BlockHeader.from_block]
    exact ⟨readBlock_agree_at f g false hagree cb 7 (by omega) (by decide),
      by rw [readBlock_agree_at f g false hagree cb 2 (by omega) (by decide),
        readBlock_agree_at f g false hagree cb 3 (by omega) (by decide)]⟩
  · simp only [BlockHeader.from_block]
    exact ⟨readBlock_agree_at f g true hagree cb 9 (by omega) (by decide),
      by rw [readBlock_agree_at f g true hagree cb 4 (by omega) (by decide),
        readBlock_agree_at f g true hagree cb 5 (by omega) (by decide)]⟩

theorem readBlock_payload_agree (f g : DataFile) (big : Bool)
    (hagree : ∀ p, p % 520 ∉ nextBlockBytePositions big →
      f.readByte p = g.readByte p) (cb c : Nat) :
    ((readBlock f cb).drop (headerSizeB big)).take c =
      ((readBlock g cb).drop (headerSizeB big)).take c := by
  apply List.ext_getElem?
  intro i
  rw [List.getElem?_take, List.getElem?_take]
  split
  · rw [List.getElem?_drop, List.getElem?_drop, readBlock_getElem?,
      readBlock_getElem?]
    by_cases hlt : headerSizeB big + i < 520
    · rw [if_pos hlt, if_pos hlt]
      refine congrArg some (hagree _ ?_)
      have hmod : (cb * 520 + (headerSizeB big + i)) % 520 = headerSizeB big + i := by
        have : headerSizeB big + i < 520 := hlt
        omega
      rw [hmod]
      cases big <;> simp only [nextBlockBytePositions, headerSizeB] at * <;>
        simp <;> omega
    · rw [if_neg hlt, if_neg hlt]
  · rfl

theorem readEntryLoop_congr (f g : DataFile) (idx : Nat) (big : Bool)
    (hagree : ∀ p, p % 520 ∉ nextBlockBytePositions big →
      f.readByte p = g.readByte p) :
    ∀ fuel cb r cs acc,
      readEntryLoop f idx big fuel cb r cs acc =
        readEntryLoop g idx big fuel cb r cs acc := by
  intro fuel
  induction fuel with
  | zero =>
    intro cb r cs acc
    by_cases hr : r = 0
    · subst hr
      rw [readEntryLoop_zero, readEntryLoop_zero]
    · rw [readEntryLoop_out f idx big cb r cs acc hr,
        readEntryLoop_out g idx big cb r cs acc hr]
  | succ fuel ih =>
    intro cb r cs acc
    by_cases hr : r = 0
    · subst hr
      rw [readEntryLoop_zero, readEntryLoop_zero]
    · rw [readEntryLoop_succ f idx big fuel cb r cs acc hr,
        readEntryLoop_succ g idx big fuel cb r cs acc hr]
      have hfields := from_block_agree f g big cb hagree
      rw [hfields.1, hfields.2, readBlock_payload_agree f g big hagree cb]
      split
      · rfl
      · exact ih _ _ _ _

/-- C1 (amended): after consuming a block's payload, `read_entry` visits
`current_block + 1` — the next block in file order; the header's
`next_block` field is parsed but never consulted, so `read_entry` is
unchanged under arbitrary modification of the `next_block` bytes of every
block. -/
theorem read_entry_next_block_unused_c1 (f g : DataFile) (e : IndexEntry)
    (hagree : ∀ p, p % 520 ∉ nextBlockBytePositions (entryBig e) →
      f.readByte p = g.readByte p) :
    MainFile.read_entry (some f) e = MainFile.read_entry (some g) e := by
  unfold MainFile.read_entry
  exact readEntryLoop_congr f g e.index (entryBig e) hagree _ _ _ _ _

set_option maxRecDepth 1000000 in
theorem read_entry_next_block_unused_c1_witness :
    MainFile.read_entry (some c1file) c1entry =
      MainFile.read_entry (some c1fileB) c1entry :=
  read_entry_next_block_unused_c1 c1file c1fileB c1entry (by
    intro p hp
    by_cases hp6 : p = 6
    · exact absurd (by rw [hp6]; decide) hp
    · simp [c1file, c1fileB, DataFile.readByte, hp6])

set_option maxRecDepth 1000000 in
/-- C1 (counterexample): in `c1file`, block 0's header names block 5 as its
successor, but `read_entry` reads block 1 next: the code's result carries
block 1's payload byte 42 where the spec's `next_block`-following
traversal (`read_entry_spec`) carries block 5's payload byte 99. -/
theorem read_entry_next_block_c1_counterexample :
    (blockHdr c1file (entryBig c1entry) c1entry.block).next_block = 5 ∧
    MainFile.read_entry (some c1file) c1entry =
      .ok (List.replicate 512 1 ++ [42]) ∧
    read_entry_spec (some c1file) c1entry =
      .ok (List.replicate 512 1 ++ [99]) ∧
    MainFile.read_entry (some c1file) c1entry ≠
      read_entry_spec (some c1file) c1entry :=
  ⟨by decide, by decide, by decide, by decide⟩

/-- C2: `decode` on a `has_whirlpool` payload reads 0 — not 64 — bytes
per folder: the `whirlpool` buffer is created empty by
`ReferenceTableFolder::new`, so `read_exact` into it is a no-op and the
decoded folder's digest is empty.  On `c2bytes` (one folder, whirlpool
flag set, the folder version and file count following the crc directly)
the table decodes "successfully" with an empty whirlpool. -/
theorem whirlpool_not_read_c2 :
    ReferenceTable.decode c2bytes =
      some ({ version := 5, revision := 0,
              flags := { has_names := false, has_whirlpool := true },
              entries := [(5, { id := 5, name_hash := 0, crc32 := 1,
                                whirlpool := [], version := 2, files := [],
                                file_count := 0 })] }, []) := by
  decide

/-- C7: the per-folder file-ID loop iterates `files[i].len()` times, but
each `files[i]` is a `Vec::with_capacity` of length 0, so no file IDs are
ever decoded: on `c7bytes` (one folder, file count 1, then the 2-byte
file-ID delta `3`) the folder decodes with an empty file map and the two
delta bytes `[0, 3]` are left unconsumed in the stream. -/
theorem file_ids_not_read_c7 :
    ReferenceTable.decode c7bytes =
      some ({ version := 5, revision := 0,
              flags := { has_names := false, has_whirlpool := false },
              entries := [(5, { id := 5, name_hash := 0, crc32 := 1,
                                whirlpool := [], version := 2, files := [],
                                file_count := 0 })] }, [0, 3]) := by
  decide

/-- C8 (counterexample): on `c8bytes` both folder deltas accumulate to
ID 5, yet `decode` succeeds instead of failing. -/
theorem duplicate_ids_c8_counterexample :
    (ReferenceTable.decode c8bytes).isSome = true := by
  decide

/-- C8 (amended): duplicate IDs are not fatal: `HashMap::insert` replaces
the earlier binding, so the most recently inserted folder (or file) wins
and `decode` succeeds — on `c8bytes` the resulting table holds a single
folder with ID 5, the second one (crc 2, version 4). -/
theorem duplicate_ids_replace_c8 :
    (∀ (l : List (Int × ReferenceTableFolder)) (k : Int)
      (v : ReferenceTableFolder),
      lookupA (insertReplace l k v) k = some v) ∧
    ReferenceTable.decode c8bytes =
      some ({ version := 5, revision := 0,
              flags := { has_names := false, has_whirlpool := false },
              entries := [(5, { id := 5, name_hash := 0, crc32 := 2,
                                whirlpool := [], version := 4, files := [],
                                file_count := 0 })] }, []) := by
  constructor
  · intro l k v
    induction l with
    | nil => simp [insertReplace, lookupA]
    | cons hd t ih =>
      obtain ⟨k', v'⟩ := hd
      simp only [insertReplace]
      split
      · simp [lookupA]
      next hne =>
        simp only [lookupA]
        rw [if_neg hne]
        exact ih
  · decide

theorem read_vari32_spec_c6_witness :
    read_vari32 (200 :: [1, 2, 3]) =
      some (((beVal ((200 :: [1, 2, 3]).take 4) % 2 ^ 31 : Nat) : Int),
        (200 :: [1, 2, 3]).drop 4) :=
  (read_vari32_spec_c6 200 [1, 2, 3] (by decide)).1 (by decide) (by decide)

end Scapefs
